import Mathlib

/-!
Verification of `composite_demo/tool_registry.py`.

The development shallowly embeds the registry module:

* `Value` models the Python values flowing through the registry (argument
  values, annotation metadata, tool results).  `pyStr`/`pyRepr` model
  Python's `str`/`repr` on those values.
* `register_tool`, `dispatch_tool` and the registry state mirror the
  source functions line by line; the module-level dicts `_TOOL_HOOKS` and
  `_TOOL_DESCRIPTIONS` become the two fields of `Registry`, with dict
  assignment modelled as prepending (a later entry shadows an earlier one
  under `slookup`, exactly like overwriting a dict key).
* Since the module dicts are mutated only by the final two assignments of
  `register_tool`, a raised registration error leaves them untouched;
  `registerRun` is that state-level view of `register_tool`.
* `get_tools` performs `copy.deepcopy` on the descriptions dict; the heap
  model in the second half of the file (`Heap`, `HObj`, `get_toolsH`)
  makes object identity and mutation explicit so that the deep-copy
  isolation claims are real statements.
-/

set_option maxHeartbeats 1000000

/-- Python values relevant to the registry: the argument values supplied to
`dispatch_tool`, the metadata attached to `Annotated` parameters, and the
results returned by tool bodies. -/
inductive Value where
  | vint : Int → Value
  | vstr : String → Value
  | vbool : Bool → Value
  | vnone : Value
  | vtuple : List Value → Value

mutual

/-- Python `repr` on `Value` (string escaping is approximated by plain
quoting; no claim depends on the rendering of quoted strings). -/
def pyRepr : Value → String
  | Value.vint n => toString n
  | Value.vstr s => "\x27" ++ s ++ "\x27"
  | Value.vbool b => if b then "True" else "False"
  | Value.vnone => "None"
  | Value.vtuple vs =>
    match vs with
    | [] => "()"
    | [v] => "(" ++ pyRepr v ++ ",)"
    | v :: rest => "(" ++ pyRepr v ++ pyReprRest rest ++ ")"

/-- Renders `, x` for each remaining tuple element. -/
def pyReprRest : List Value → String
  | [] => ""
  | v :: rest => ", " ++ pyRepr v ++ pyReprRest rest

end

/-- Python `str` on `Value`: the identity on strings, `repr` otherwise
(which matches `str` on ints, bools, `None` and tuples). -/
def pyStr : Value → String
  | Value.vstr s => s
  | Value.vint n => pyRepr (Value.vint n)
  | Value.vbool b => pyRepr (Value.vbool b)
  | Value.vnone => pyRepr Value.vnone
  | Value.vtuple vs => pyRepr (Value.vtuple vs)

/-- First-match lookup in an association list with string keys: the model of
`d[k]` / `k in d` for the module-level dicts, where an overwritten key has
its newer binding closer to the head. -/
def slookup {α : Type} : List (String × α) → String → Option α
  | [], _ => none
  | (k, v) :: rest, n => if n = k then some v else slookup rest n

/-- The underlying type carried by an `Annotated` annotation, as consumed by
`register_tool`: `typ.__name__` for a plain class, `str(typ)` for a
`types.GenericAlias` such as `tuple[int, int]`.  Each constructor carries the
string that the corresponding rendering primitive produces. -/
inductive PyType where
  | named : String → PyType
  | genericAlias : String → PyType

/-- Line `typ: str = str(typ) if isinstance(typ, GenericAlias) else typ.__name__`. -/
def typeTag : PyType → String
  | PyType.named s => s
  | PyType.genericAlias s => s

/-- A parameter's declared annotation as `register_tool` observes it:
absent (`inspect.Parameter.empty`), some non-`Annotated` annotation
(`get_origin(annotation) != Annotated`), or `Annotated[typ, *metadata]`
with its `__origin__` and `__metadata__`. -/
inductive Ann where
  | empty : Ann
  | plain : PyType → Ann
  | annotated : PyType → List Value → Ann

/-- One parameter of `inspect.signature(func).parameters`, in declaration
order: its name and its annotation (field `ann`, for `param.annotation`). -/
structure Param where
  name : String
  ann : Ann

/-- The failures `register_tool` can raise, one constructor per `raise`
site (plus the two failures Python raises on its own):
`metadataUnpack` is the `ValueError` raised by the tuple unpacking
`(description, required) = annotation.__metadata__` when the metadata does
not have exactly two elements, and `docNone` is the `AttributeError` raised
by `inspect.getdoc(func).strip()` when the callable has no docstring. -/
inductive RegError where
  | missingAnnotation : String → RegError
  | notAnnotated : String → RegError
  | metadataUnpack : String → RegError
  | invalidDescription : String → RegError
  | invalidRequiredFlag : String → RegError
  | docNone : RegError
deriving DecidableEq

/-- The specification's abstract registration error kinds (§7 of the spec). -/
inductive SpecErrKind where
  | MissingAnnotation : SpecErrKind
  | MalformedAnnotation : SpecErrKind
  | InvalidDescription : SpecErrKind
  | InvalidRequiredFlag : SpecErrKind
  | MissingDescription : SpecErrKind
deriving DecidableEq

/-- Classification of each concrete failure under the spec's error kinds.
The wrong-arity metadata unpacking is a `MalformedAnnotation` ("the shape
does not match" in §4.2), and the failure on an absent docstring is the
`MissingDescription` case. -/
def errKind : RegError → SpecErrKind
  | RegError.missingAnnotation _ => SpecErrKind.MissingAnnotation
  | RegError.notAnnotated _ => SpecErrKind.MalformedAnnotation
  | RegError.metadataUnpack _ => SpecErrKind.MalformedAnnotation
  | RegError.invalidDescription _ => SpecErrKind.InvalidDescription
  | RegError.invalidRequiredFlag _ => SpecErrKind.InvalidRequiredFlag
  | RegError.docNone => SpecErrKind.MissingDescription

/-- One entry of the `tool_params` list built by `register_tool`: the dict
`\x7b"name": ..., "description": ..., "type": ..., "required": ...\x7d`. -/
structure ParamSpec where
  name : String
  description : String
  type : String
  required : Bool
deriving DecidableEq

/-- The `tool_def` dict built by `register_tool`. -/
structure ToolDef where
  name : String
  description : String
  params : List ParamSpec
deriving DecidableEq

/-- The body of the `for name, param in python_params.items()` loop for one
parameter, in source order: missing-annotation check, `get_origin` check,
metadata unpacking, description `isinstance` check, required `isinstance`
check, then the appended dict. -/
def processParam (p : Param) : Except RegError ParamSpec :=
  match p.ann with
  | Ann.empty => Except.error (RegError.missingAnnotation p.name)
  | Ann.plain _ => Except.error (RegError.notAnnotated p.name)
  | Ann.annotated typ metadata =>
    match metadata with
    | [d, r] =>
      match d with
      | Value.vstr description =>
        match r with
        | Value.vbool required =>
          Except.ok { name := p.name, description := description,
                      type := typeTag typ, required := required }
        | _ => Except.error (RegError.invalidRequiredFlag p.name)
      | _ => Except.error (RegError.invalidDescription p.name)
    | _ => Except.error (RegError.metadataUnpack p.name)

/-- The whole parameter loop: the first raising parameter aborts
registration, otherwise the `ParamSpec`s are collected in declaration
order. -/
def processParams : List Param → Except RegError (List ParamSpec)
  | [] => Except.ok []
  | p :: rest =>
    match processParam p with
    | Except.error e => Except.error e
    | Except.ok spec =>
      match processParams rest with
      | Except.error e => Except.error e
      | Except.ok specs => Except.ok (spec :: specs)

/-- Result of invoking a tool body with keyword arguments: a normal return
value, or a raised failure whose payload is the text that
`traceback.format_exc()` renders for it. -/
inductive CallResult where
  | ok : Value → CallResult
  | exn : String → CallResult

/-- A Python callable as the registry sees it: `__name__`, the result of
`inspect.getdoc` (`none` when there is no docstring), its signature's
parameters in declaration order, and its behaviour when called with keyword
arguments (the `**tool_params` binding, including binding failures, is part
of `impl`). -/
structure Func where
  name : String
  doc : Option String
  params : List Param
  impl : List (String × Value) → CallResult

/-- The `tool_def` computation of `register_tool` in source order: fetch and
trim the docstring (`inspect.getdoc(func).strip()`, raising on `None`), run
the parameter loop, then assemble the descriptor dict. -/
def toolDefOf (func : Func) : Except RegError ToolDef :=
  match func.doc with
  | none => Except.error RegError.docNone
  | some doc =>
    let tool_description := doc.trim
    match processParams func.params with
    | Except.error e => Except.error e
    | Except.ok tool_params =>
      Except.ok { name := func.name, description := tool_description,
                  params := tool_params }

/-- The module-level state: `_TOOL_HOOKS` and `_TOOL_DESCRIPTIONS`. -/
structure Registry where
  hooks : List (String × Func)
  descriptions : List (String × ToolDef)

/-- The initial module state: both dicts empty. -/
def emptyRegistry : Registry := { hooks := [], descriptions := [] }

/-- `register_tool`: validate and build the descriptor, then perform
`_TOOL_HOOKS[tool_name] = func` and `_TOOL_DESCRIPTIONS[tool_name] =
tool_def` (the `print` is an observability side effect with no bearing on
the state).  A raised error propagates to the caller. -/
def register_tool (reg : Registry) (func : Func) : Except RegError Registry :=
  match toolDefOf func with
  | Except.error e => Except.error e
  | Except.ok tool_def =>
    Except.ok { hooks := (func.name, func) :: reg.hooks,
                descriptions := (func.name, tool_def) :: reg.descriptions }

/-- The effect of a `register_tool` call on the module dicts: both
assignments happen after all validation, so a raised error leaves the
state exactly as it was. -/
def registerRun (reg : Registry) (func : Func) : Registry :=
  match register_tool reg func with
  | Except.ok reg' => reg'
  | Except.error _ => reg

/-- The fixed message `f"Tool \x60{tool_name}\x60 not found. Please use a provided tool."`. -/
def notFoundMsg (tool_name : String) : String :=
  "Tool `" ++ tool_name ++ "` not found. Please use a provided tool."

/-- `dispatch_tool`: not-found lookup, then `try: ret = tool_call(**tool_params)`
with a bare `except:` that replaces `ret` by the formatted traceback, and
finally `return str(ret)`. -/
def dispatch_tool (reg : Registry) (tool_name : String)
    (tool_params : List (String × Value)) : String :=
  match slookup reg.hooks tool_name with
  | none => notFoundMsg tool_name
  | some tool_call =>
    let ret : Value :=
      match tool_call.impl tool_params with
      | CallResult.ok v => v
      | CallResult.exn t => Value.vstr t
    pyStr ret

/-- `dispatch_tool` together with a trace of the invocation it performed:
`none` when the not-found branch returned without calling anything, and
`some` of the call outcome otherwise.  The first component coincides with
`dispatch_tool`. -/
def dispatch_toolTrace (reg : Registry) (tool_name : String)
    (tool_params : List (String × Value)) : String × Option CallResult :=
  match slookup reg.hooks tool_name with
  | none => (notFoundMsg tool_name, none)
  | some tool_call =>
    let r := tool_call.impl tool_params
    (pyStr (match r with
            | CallResult.ok v => v
            | CallResult.exn t => Value.vstr t), some r)

/-- State-level view of a `dispatch_tool` call: the function only reads the
module dicts (it contains no assignment to them), so the state after the
call is the state before it. -/
def dispatchStep (reg : Registry) (tool_name : String)
    (tool_params : List (String × Value)) : String × Registry :=
  (dispatch_tool reg tool_name tool_params, reg)

/-- Spec-side classifier used to state the rejection claim: the flaw of a
parameter annotation, as one of the spec's error kinds, or `none` when the
annotation is the accepted three-part `Annotated` shape. -/
def annFlaw : Ann → Option SpecErrKind
  | Ann.empty => some SpecErrKind.MissingAnnotation
  | Ann.plain _ => some SpecErrKind.MalformedAnnotation
  | Ann.annotated _ metadata =>
    match metadata with
    | [d, r] =>
      match d with
      | Value.vstr _ =>
        match r with
        | Value.vbool _ => none
        | _ => some SpecErrKind.InvalidRequiredFlag
      | _ => some SpecErrKind.InvalidDescription
    | _ => some SpecErrKind.MalformedAnnotation

/-- Descriptions component of a registration outcome (used to state
concrete registration results without comparing stored callables). -/
def okDescriptions : Except RegError Registry → Option (List (String × ToolDef))
  | Except.ok reg => some reg.descriptions
  | Except.error _ => none

/-- Trace alphabet for the registry's lifetime: the operations that touch
the module dicts. -/
inductive Op where
  | opReg : Func → Op
  | opDisp : String → List (String × Value) → Op

/-- Effect of one operation on the module dicts. -/
def stepOp (reg : Registry) : Op → Registry
  | Op.opReg f => registerRun reg f
  | Op.opDisp n a => (dispatchStep reg n a).2

/-- Effect of a whole call sequence on the module dicts. -/
def runOps : Registry → List Op → Registry
  | reg, [] => reg
  | reg, op :: rest => runOps (stepOp reg op) rest

/-- Concrete tool: `f(x)` returning `x + 1`, with a well-formed
three-part annotation (the spec's dispatch round-trip example). -/
def fAddOne : Func :=
  { name := "f",
    doc := some "Adds one to x",
    params := [{ name := "x",
                 ann := Ann.annotated (PyType.named "int")
                   [Value.vstr "the int to increment", Value.vbool true] }],
    impl := fun args =>
      match slookup args "x" with
      | some (Value.vint n) => CallResult.ok (Value.vint (n + 1))
      | _ => CallResult.exn "Traceback (most recent call last): TypeError: f missing argument x" }

/-- Concrete tool whose body always raises. -/
def fBoom : Func :=
  { name := "boom",
    doc := some "Always raises",
    params := [],
    impl := fun _ => CallResult.exn "Traceback (most recent call last): RuntimeError: boom" }

/-- Concrete callable whose docstring is whitespace-only, so that
`inspect.getdoc` returns the empty string (`inspect.cleandoc` of a blank
docstring). -/
def fBlankDoc : Func :=
  { name := "blank",
    doc := some "",
    params := [],
    impl := fun _ => CallResult.ok Value.vnone }

/-- Concrete callable with no docstring at all (`inspect.getdoc` returns
`None`). -/
def fNoDoc : Func :=
  { name := "nodoc",
    doc := none,
    params := [],
    impl := fun _ => CallResult.ok Value.vnone }

/-- Concrete callable with an un-annotated parameter. -/
def fBadParam : Func :=
  { name := "bad",
    doc := some "Has an unannotated parameter",
    params := [{ name := "y", ann := Ann.empty }],
    impl := fun _ => CallResult.ok Value.vnone }

/-- First registrand of a duplicate-name pair. -/
def fDupA : Func :=
  { name := "dup",
    doc := some "first version",
    params := [],
    impl := fun _ => CallResult.ok (Value.vint 1) }

/-- Second registrand of a duplicate-name pair, same name as `fDupA`. -/
def fDupB : Func :=
  { name := "dup",
    doc := some "second version",
    params := [],
    impl := fun _ => CallResult.ok (Value.vint 2) }

/-- Heap objects: the mutable Python objects reachable from
`_TOOL_DESCRIPTIONS`.  The dict and list cells are typed by the fixed shape
of the stored descriptors: a top-level dict mapping tool names to tool-def
dicts, each tool-def dict holding two immutable strings and its `params`
list, that list holding references to parameter dicts, and each parameter
dict holding only immutable fields.  Strings and booleans are immutable in
Python and are stored inline; every reference field is a heap address. -/
inductive HObj where
  | paramObj : ParamSpec → HObj
  | paramsList : List Nat → HObj
  | toolObj : String → String → Nat → HObj
  | rootObj : List (String × Nat) → HObj

/-- A heap: addresses paired with the object stored there.  Newer cells are
prepended; an address is never allocated twice (allocation uses a strictly
increasing counter). -/
abbrev Heap : Type := List (Nat × HObj)

/-- Address lookup (first match). -/
def hlookup : Heap → Nat → Option HObj
  | [], _ => none
  | (b, o) :: rest, a => if a = b then some o else hlookup rest a

/-- In-place mutation of the object stored at address `a`: the model of any
Python statement that mutates that object (item assignment, `append`,
`clear`, ...), which may replace its contents arbitrarily. -/
def hset (h : Heap) (a : Nat) (o : HObj) : Heap :=
  h.map (fun p => if p.1 = a then (a, o) else p)

/-- Read a parameter dict back from the heap. -/
def readParam (h : Heap) (a : Nat) : Option ParamSpec :=
  match hlookup h a with
  | some (HObj.paramObj s) => some s
  | _ => none

/-- `Option`-valued map over a list, first failure aborting. -/
def optMap {α β : Type} (f : α → Option β) : List α → Option (List β)
  | [] => some []
  | x :: xs =>
    match f x with
    | none => none
    | some y =>
      match optMap f xs with
      | none => none
      | some ys => some (y :: ys)

/-- Read a tool-def dict (with its params list and parameter dicts) back
from the heap. -/
def readTool (h : Heap) (a : Nat) : Option ToolDef :=
  match hlookup h a with
  | some (HObj.toolObj n d pa) =>
    match hlookup h pa with
    | some (HObj.paramsList rs) =>
      match optMap (readParam h) rs with
      | some ps => some { name := n, description := d, params := ps }
      | none => none
    | _ => none
  | _ => none

/-- Read the whole catalog dict back from the heap: the pure value of the
object graph rooted at address `a`. -/
def readCatalog (h : Heap) (a : Nat) : Option (List (String × ToolDef)) :=
  match hlookup h a with
  | some (HObj.rootObj entries) =>
    optMap (fun e =>
      match readTool h e.2 with
      | some td => some (e.1, td)
      | none => none) entries
  | _ => none

/-- Allocate fresh parameter dicts for each `ParamSpec`, returning their
addresses, the next counter, and the extended heap. -/
def allocParams (c : Nat) (h : Heap) : List ParamSpec → List Nat × Nat × Heap
  | [] => ([], c, h)
  | s :: rest =>
    let t := allocParams (c + 1) ((c, HObj.paramObj s) :: h) rest
    (c :: t.1, t.2.1, t.2.2)

/-- Allocate a fresh copy of one tool-def dict: its parameter dicts, its
params list, then the dict itself.  Returns the dict's address. -/
def allocTool (c : Nat) (h : Heap) (td : ToolDef) : Nat × Nat × Heap :=
  let t := allocParams c h td.params
  (t.2.1 + 1, t.2.1 + 2,
    (t.2.1 + 1, HObj.toolObj td.name td.description t.2.1) ::
      (t.2.1, HObj.paramsList t.1) :: t.2.2)

/-- Allocate fresh copies of all tool-def dicts of a catalog, returning the
entry list for the top-level dict. -/
def allocCatalog (c : Nat) (h : Heap) : List (String × ToolDef) →
    List (String × Nat) × Nat × Heap
  | [] => ([], c, h)
  | (n, td) :: rest =>
    let t := allocTool c h td
    let t' := allocCatalog t.2.1 t.2.2 rest
    ((n, t.1) :: t'.1, t'.2.1, t'.2.2)

/-- `copy.deepcopy` of a catalog value: every dict and list of the copy is a
freshly allocated object; only immutable strings and booleans are shared.
Returns the address of the new top-level dict. -/
def deepcopyCatalog (c : Nat) (h : Heap) (m : List (String × ToolDef)) :
    Nat × Nat × Heap :=
  let t := allocCatalog c h m
  (t.2.1, t.2.1 + 1, (t.2.1, HObj.rootObj t.1) :: t.2.2)

/-- The mutable store of the running module: its heap, its allocation
counter (every live address is below it), and the address of the
`_TOOL_DESCRIPTIONS` dict. -/
structure HState where
  heap : Heap
  ctr : Nat
  root : Nat

/-- `get_tools`: `return copy.deepcopy(_TOOL_DESCRIPTIONS)`.  The current
value of the catalog is read off the heap and rebuilt out of fresh objects;
the returned address is the copy's top-level dict.  (The `none` branch is
unreachable for well-formed states.) -/
def get_toolsH (s : HState) : Option Nat × HState :=
  match readCatalog s.heap s.root with
  | none => (none, s)
  | some m =>
    let t := deepcopyCatalog s.ctr s.heap m
    (some t.1, { heap := t.2.2, ctr := t.2.1, root := s.root })

/-- Caller-side mutation of the object at address `b` in state `s`. -/
def mutateAt (s : HState) (b : Nat) (o : HObj) : HState :=
  { heap := hset s.heap b o, ctr := s.ctr, root := s.root }

/-- All reference fields of an object lie below `c`. -/
def objRefsBelow (c : Nat) : HObj → Bool
  | HObj.paramObj _ => true
  | HObj.paramsList rs => rs.all (fun r => decide (r < c))
  | HObj.toolObj _ _ pa => decide (pa < c)
  | HObj.rootObj es => es.all (fun e => decide (e.2 < c))

/-- Every cell of the heap lives at an address below `c` and only refers to
addresses below `c` (the allocation-counter invariant). -/
def heapBelow (c : Nat) (h : Heap) : Bool :=
  h.all (fun p => decide (p.1 < c) && objRefsBelow c p.2)

/-- `h2` agrees with `h1` on every address below `c`. -/
def agreeBelow (c : Nat) (h1 h2 : Heap) : Prop :=
  ∀ x, x < c → hlookup h2 x = hlookup h1 x

/-- Concrete well-formed heap for witnesses: one registered tool. -/
def hEx : Heap :=
  [(3, HObj.rootObj [("f", 2)]),
   (2, HObj.toolObj "f" "Adds one to x" 1),
   (1, HObj.paramsList [0]),
   (0, HObj.paramObj { name := "x", description := "the int to increment",
                       type := "int", required := true })]

/-- Concrete well-formed state for witnesses. -/
def sEx : HState := { heap := hEx, ctr := 4, root := 3 }

/-- The catalog value stored in `sEx`. -/
def mEx : List (String × ToolDef) :=
  [("f", { name := "f", description := "Adds one to x",
           params := [{ name := "x", description := "the int to increment",
                        type := "int", required := true }] })]

theorem pyStr_vstr (s : String) : pyStr (Value.vstr s) = s := rfl

/-- Claim C1: for every registered tool and every argument mapping,
`dispatch_tool` never propagates a failure: when the invoked body raises
(for any reason, argument-binding failures included), the formatted failure
trace is returned as the result string, and on normal return the string
representation of the result is returned.  The return type `String` of
`dispatch_tool` records that the returned value is a string in every
case. -/
theorem dispatch_tool_c1 (reg : Registry) (tool_name : String)
    (args : List (String × Value)) (f : Func)
    (h : slookup reg.hooks tool_name = some f) :
    dispatch_tool reg tool_name args =
      (match f.impl args with
       | CallResult.ok v => pyStr v
       | CallResult.exn t => t) := by
  cases hi : f.impl args with
  | ok v => simp [dispatch_tool, h, hi]
  | exn t => simp [dispatch_tool, h, hi, pyStr]

/-- Witness for C1: a concrete registered tool whose body raises; the
dispatcher returns the traceback text. -/
theorem dispatch_tool_c1_witness :
    dispatch_tool (registerRun emptyRegistry fBoom) "boom" [] =
      "Traceback (most recent call last): RuntimeError: boom" :=
  dispatch_tool_c1 (registerRun emptyRegistry fBoom) "boom" [] fBoom rfl

/-- Claim C3: dispatching an unregistered name returns the fixed "tool not
found" string as a reported outcome (no failure is raised — the result is a
normal string return), no tool body is invoked (the invocation trace is
`none`), and the module dicts are untouched. -/
theorem dispatch_tool_c3 (reg : Registry) (tool_name : String)
    (args : List (String × Value))
    (h : slookup reg.hooks tool_name = none) :
    dispatch_tool reg tool_name args = notFoundMsg tool_name ∧
    dispatch_toolTrace reg tool_name args = (notFoundMsg tool_name, none) ∧
    (dispatchStep reg tool_name args).2 = reg := by
  refine ⟨?_, ?_, rfl⟩
  · unfold dispatch_tool
    rw [h]
  · unfold dispatch_toolTrace
    rw [h]

/-- Witness for C3 at the spec's own example input. -/
theorem dispatch_tool_c3_witness :
    dispatch_tool emptyRegistry "nonexistent_tool" [] = notFoundMsg "nonexistent_tool" ∧
    dispatch_toolTrace emptyRegistry "nonexistent_tool" [] = (notFoundMsg "nonexistent_tool", none) ∧
    (dispatchStep emptyRegistry "nonexistent_tool" []).2 = emptyRegistry :=
  dispatch_tool_c3 emptyRegistry "nonexistent_tool" [] rfl

/-- Claim C6: for the registered tool `f(x) = x + 1`, dispatching
`{"x": 5}` returns exactly the string `"6"`; and in general, when a
registered tool returns normally, `dispatch_tool` returns the string
representation of the returned value. -/
theorem dispatch_tool_c6 :
    dispatch_tool (registerRun emptyRegistry fAddOne) "f" [("x", Value.vint 5)] = "6" ∧
    ∀ (reg : Registry) (tool_name : String) (args : List (String × Value))
      (f : Func) (v : Value),
      slookup reg.hooks tool_name = some f →
      f.impl args = CallResult.ok v →
      dispatch_tool reg tool_name args = pyStr v := by
  refine ⟨by decide, ?_⟩
  intro reg tool_name args f v hf hv
  simp [dispatch_tool, hf, hv]

/-- Witness for C6's general part at a fresh concrete input. -/
theorem dispatch_tool_c6_witness :
    dispatch_tool (registerRun emptyRegistry fAddOne) "f" [("x", Value.vint 41)] =
      pyStr (Value.vint 42) :=
  dispatch_tool_c6.2 (registerRun emptyRegistry fAddOne) "f" [("x", Value.vint 41)]
    fAddOne (Value.vint 42) rfl rfl

/-- Claim C8: registering a second callable under an already-present name
succeeds and overwrites both mappings — afterwards the stored invocable is
the second callable and the stored descriptor is the one built from it
(last registration wins; no duplicate detection). -/
theorem register_tool_c8 (reg reg1 reg2 : Registry) (f g : Func)
    (hname : f.name = g.name)
    (_h1 : register_tool reg f = Except.ok reg1)
    (h2 : register_tool reg1 g = Except.ok reg2) :
    slookup reg2.hooks f.name = some g ∧
    ∃ td, toolDefOf g = Except.ok td ∧
      slookup reg2.descriptions f.name = some td := by
  unfold register_tool at h2
  cases htd : toolDefOf g with
  | error e => rw [htd] at h2; exact absurd h2 (by simp)
  | ok td =>
    rw [htd] at h2
    cases h2
    refine ⟨?_, td, rfl, ?_⟩
    · simp [slookup, hname]
    · simp [slookup, hname]

/-- Witness for C8: two concrete tools registered under the same name. -/
theorem register_tool_c8_witness :
    slookup (registerRun (registerRun emptyRegistry fDupA) fDupB).hooks fDupA.name = some fDupB ∧
    ∃ td, toolDefOf fDupB = Except.ok td ∧
      slookup (registerRun (registerRun emptyRegistry fDupA) fDupB).descriptions fDupA.name = some td :=
  register_tool_c8 emptyRegistry (registerRun emptyRegistry fDupA)
    (registerRun (registerRun emptyRegistry fDupA) fDupB) fDupA fDupB rfl rfl rfl

theorem annFlaw_some_processParam (p : Param) (k : SpecErrKind)
    (h : annFlaw p.ann = some k) :
    ∃ e, processParam p = Except.error e ∧ errKind e = k := by
  obtain ⟨pn, ann⟩ := p
  cases ann with
  | empty =>
    simp [annFlaw] at h
    subst h
    exact ⟨RegError.missingAnnotation pn, rfl, rfl⟩
  | plain t =>
    simp [annFlaw] at h
    subst h
    exact ⟨RegError.notAnnotated pn, rfl, rfl⟩
  | annotated t md =>
    rcases md with _ | ⟨d, _ | ⟨r, _ | ⟨x, xs⟩⟩⟩
    · simp [annFlaw] at h
      subst h
      exact ⟨RegError.metadataUnpack pn, rfl, rfl⟩
    · simp [annFlaw] at h
      subst h
      exact ⟨RegError.metadataUnpack pn, rfl, rfl⟩
    · cases d with
      | vstr ds =>
        cases r with
        | vbool rb => simp [annFlaw] at h
        | vint m => simp [annFlaw] at h; subst h; exact ⟨RegError.invalidRequiredFlag pn, rfl, rfl⟩
        | vstr s2 => simp [annFlaw] at h; subst h; exact ⟨RegError.invalidRequiredFlag pn, rfl, rfl⟩
        | vnone => simp [annFlaw] at h; subst h; exact ⟨RegError.invalidRequiredFlag pn, rfl, rfl⟩
        | vtuple vs => simp [annFlaw] at h; subst h; exact ⟨RegError.invalidRequiredFlag pn, rfl, rfl⟩
      | vint m => simp [annFlaw] at h; subst h; exact ⟨RegError.invalidDescription pn, rfl, rfl⟩
      | vbool b => simp [annFlaw] at h; subst h; exact ⟨RegError.invalidDescription pn, rfl, rfl⟩
      | vnone => simp [annFlaw] at h; subst h; exact ⟨RegError.invalidDescription pn, rfl, rfl⟩
      | vtuple vs => simp [annFlaw] at h; subst h; exact ⟨RegError.invalidDescription pn, rfl, rfl⟩
    · simp [annFlaw] at h
      subst h
      exact ⟨RegError.metadataUnpack pn, rfl, rfl⟩

theorem annFlaw_none_processParam (p : Param)
    (h : annFlaw p.ann = none) :
    ∃ s, processParam p = Except.ok s := by
  obtain ⟨pn, ann⟩ := p
  cases ann with
  | empty => simp [annFlaw] at h
  | plain t => simp [annFlaw] at h
  | annotated t md =>
    rcases md with _ | ⟨d, _ | ⟨r, _ | ⟨x, xs⟩⟩⟩
    · simp [annFlaw] at h
    · simp [annFlaw] at h
    · cases d with
      | vstr ds =>
        cases r with
        | vbool rb =>
          exact ⟨{ name := pn, description := ds, type := typeTag t, required := rb }, rfl⟩
        | vint m => simp [annFlaw] at h
        | vstr s2 => simp [annFlaw] at h
        | vnone => simp [annFlaw] at h
        | vtuple vs => simp [annFlaw] at h
      | vint m => simp [annFlaw] at h
      | vbool b => simp [annFlaw] at h
      | vnone => simp [annFlaw] at h
      | vtuple vs => simp [annFlaw] at h
    · simp [annFlaw] at h

theorem processParams_append_error (pre : List Param) (p : Param)
    (post : List Param) (e : RegError)
    (hpre : ∀ q ∈ pre, ∃ s, processParam q = Except.ok s)
    (hp : processParam p = Except.error e) :
    processParams (pre ++ p :: post) = Except.error e := by
  induction pre with
  | nil => simp [processParams, hp]
  | cons q rest ih =>
    obtain ⟨s, hs⟩ := hpre q (by simp)
    have hr := ih (fun q' hq' => hpre q' (by simp [hq']))
    simp [processParams, hs, hr]

/-- Claim C2: a callable whose first flawed parameter is un-annotated, not
of the three-part `Annotated` shape, has a non-string description, or has a
non-boolean required flag fails registration with the corresponding error
kind (`MissingAnnotation`, `MalformedAnnotation`, `InvalidDescription`,
`InvalidRequiredFlag` respectively, as classified by `errKind`), and the
failed registration inserts nothing into either module dict. -/
theorem register_tool_c2 (reg : Registry) (f : Func) (d : String)
    (pre : List Param) (p : Param) (post : List Param) (k : SpecErrKind)
    (hdoc : f.doc = some d)
    (hsplit : f.params = pre ++ p :: post)
    (hpre : ∀ q ∈ pre, annFlaw q.ann = none)
    (hflaw : annFlaw p.ann = some k) :
    (∃ e, register_tool reg f = Except.error e ∧ errKind e = k) ∧
    registerRun reg f = reg := by
  obtain ⟨e, he, hk⟩ := annFlaw_some_processParam p k hflaw
  have hpp : processParams f.params = Except.error e := by
    rw [hsplit]
    exact processParams_append_error pre p post e
      (fun q hq => annFlaw_none_processParam q (hpre q hq)) he
  have hreg : register_tool reg f = Except.error e := by
    simp [register_tool, toolDefOf, hdoc, hpp]
  refine ⟨⟨e, hreg, hk⟩, ?_⟩
  simp [registerRun, hreg]

/-- Witness for C2: a concrete callable with an un-annotated parameter is
rejected with the `MissingAnnotation` kind and the registry stays empty. -/
theorem register_tool_c2_witness :
    (∃ e, register_tool emptyRegistry fBadParam = Except.error e ∧
       errKind e = SpecErrKind.MissingAnnotation) ∧
    registerRun emptyRegistry fBadParam = emptyRegistry :=
  register_tool_c2 emptyRegistry fBadParam "Has an unannotated parameter" []
    { name := "y", ann := Ann.empty } [] SpecErrKind.MissingAnnotation
    rfl rfl (by simp) rfl

theorem processParams_ok_length : ∀ (l : List Param) (s : List ParamSpec),
    processParams l = Except.ok s → s.length = l.length := by
  intro l
  induction l with
  | nil =>
    intro s h
    simp [processParams] at h
    simp [← h]
  | cons p rest ih =>
    intro s h
    simp only [processParams] at h
    cases hp : processParam p with
    | error e => rw [hp] at h; exact absurd h (by simp)
    | ok sp =>
      rw [hp] at h
      cases hr : processParams rest with
      | error e => rw [hr] at h; exact absurd h (by simp)
      | ok sps =>
        rw [hr] at h
        injection h with h'
        rw [← h']
        simp [ih sps hr]

theorem processParams_ok_get : ∀ (l : List Param) (s : List ParamSpec),
    processParams l = Except.ok s →
    ∀ i (hi : i < s.length) (hl : i < l.length),
      processParam (l.get ⟨i, hl⟩) = Except.ok (s.get ⟨i, hi⟩) := by
  intro l
  induction l with
  | nil => intro s h i hi hl; exact absurd hl (by simp)
  | cons p rest ih =>
    intro s h i hi hl
    simp only [processParams] at h
    cases hp : processParam p with
    | error e => rw [hp] at h; exact absurd h (by simp)
    | ok sp =>
      rw [hp] at h
      cases hr : processParams rest with
      | error e => rw [hr] at h; exact absurd h (by simp)
      | ok sps =>
        rw [hr] at h
        injection h with h'
        subst h'
        cases i with
        | zero => simpa using hp
        | succ j =>
          have hj : j < sps.length := by simpa using hi
          have hj' : j < rest.length := by simpa using hl
          simpa using ih sps hr j hj hj'

theorem processParam_ok_name : ∀ (p : Param) (sp : ParamSpec),
    processParam p = Except.ok sp → sp.name = p.name := by
  rintro ⟨pn, ann⟩ sp h
  cases ann with
  | empty => simp [processParam] at h
  | plain t => simp [processParam] at h
  | annotated t md =>
    rcases md with _ | ⟨d, _ | ⟨r, _ | ⟨x, xs⟩⟩⟩
    · simp [processParam] at h
    · simp [processParam] at h
    · cases d with
      | vstr ds =>
        cases r with
        | vbool rb =>
          simp [processParam] at h
          rw [← h]
        | vint m => simp [processParam] at h
        | vstr s2 => simp [processParam] at h
        | vnone => simp [processParam] at h
        | vtuple vs => simp [processParam] at h
      | vint m => simp [processParam] at h
      | vbool b => simp [processParam] at h
      | vnone => simp [processParam] at h
      | vtuple vs => simp [processParam] at h
    · simp [processParam] at h

/-- Claim C4: for every successfully registered callable, the stored
descriptor's `params` list has one entry per declared parameter, in
declaration order, each entry produced from its parameter by the
per-parameter rule (so its four fields — string name, string description,
type tag, boolean required flag — are those extracted from the annotation,
with the entry's name equal to the parameter's name).  The field types of
`ParamSpec` record that all four fields are populated and well-typed. -/
theorem register_tool_c4 (reg : Registry) (f : Func) (reg' : Registry)
    (h : register_tool reg f = Except.ok reg') :
    ∃ td, slookup reg'.descriptions f.name = some td ∧
      td.params.length = f.params.length ∧
      ∀ i (hi : i < td.params.length) (hp : i < f.params.length),
        processParam (f.params.get ⟨i, hp⟩) = Except.ok (td.params.get ⟨i, hi⟩) ∧
        (td.params.get ⟨i, hi⟩).name = (f.params.get ⟨i, hp⟩).name := by
  unfold register_tool at h
  cases htd : toolDefOf f with
  | error e => rw [htd] at h; exact absurd h (by simp)
  | ok td =>
    rw [htd] at h
    injection h with h'
    subst h'
    have hps : processParams f.params = Except.ok td.params := by
      unfold toolDefOf at htd
      cases hdoc : f.doc with
      | none => rw [hdoc] at htd; exact absurd htd (by simp)
      | some doc =>
        rw [hdoc] at htd
        simp only at htd
        cases hpp : processParams f.params with
        | error e => rw [hpp] at htd; exact absurd htd (by simp)
        | ok ps =>
          rw [hpp] at htd
          injection htd with htd'
          rw [← htd']
    refine ⟨td, by simp [slookup], processParams_ok_length f.params td.params hps, ?_⟩
    intro i hi hp
    refine ⟨processParams_ok_get f.params td.params hps i hi hp, ?_⟩
    exact processParam_ok_name _ _ (processParams_ok_get f.params td.params hps i hi hp)

/-- Witness for C4 at the concrete one-parameter tool `fAddOne`. -/
theorem register_tool_c4_witness :
    ∃ td, slookup (registerRun emptyRegistry fAddOne).descriptions fAddOne.name = some td ∧
      td.params.length = fAddOne.params.length ∧
      ∀ i (hi : i < td.params.length) (hp : i < fAddOne.params.length),
        processParam (fAddOne.params.get ⟨i, hp⟩) = Except.ok (td.params.get ⟨i, hi⟩) ∧
        (td.params.get ⟨i, hi⟩).name = (fAddOne.params.get ⟨i, hp⟩).name :=
  register_tool_c4 emptyRegistry fAddOne (registerRun emptyRegistry fAddOne) rfl

theorem trim_empty : "".trim = "" := by
  simp only [String.trim, String.toSubstring, Substring.trim, Substring.toString]
  unfold Substring.takeWhileAux
  norm_num
  unfold Substring.takeRightWhileAux
  norm_num
  decide

/-- Counterexample to claim C5: a callable whose documentation text is
present but empty after trimming (a whitespace-only docstring, for which
`inspect.getdoc` returns the empty string) registers successfully — no
`MissingDescription` failure is raised — and a descriptor with an empty
description is inserted. -/
theorem register_tool_c5_counterexample :
    fBlankDoc.doc = some "" ∧
    okDescriptions (register_tool emptyRegistry fBlankDoc) =
      some [("blank", { name := "blank", description := "", params := [] })] := by
  refine ⟨rfl, ?_⟩
  have h : okDescriptions (register_tool emptyRegistry fBlankDoc) =
      some [("blank", { name := "blank", description := "".trim, params := [] })] := rfl
  rw [h, trim_empty]

/-- Claim C5 as amended: the stored description is the callable's
documentation text trimmed of surrounding whitespace; registration fails
when the documentation text is absent (the failure classified as
`MissingDescription`), inserting nothing; but a documentation text that is
present and empty after trimming is accepted and stored as the empty
description. -/
theorem register_tool_c5_amended (reg : Registry) (f : Func) :
    (f.doc = none →
      register_tool reg f = Except.error RegError.docNone ∧
      errKind RegError.docNone = SpecErrKind.MissingDescription ∧
      registerRun reg f = reg) ∧
    (∀ d reg', f.doc = some d → register_tool reg f = Except.ok reg' →
      ∃ td, slookup reg'.descriptions f.name = some td ∧
        td.description = d.trim) := by
  constructor
  · intro hdoc
    have hreg : register_tool reg f = Except.error RegError.docNone := by
      simp [register_tool, toolDefOf, hdoc]
    exact ⟨hreg, rfl, by simp [registerRun, hreg]⟩
  · intro d reg' hdoc h
    unfold register_tool at h
    cases htd : toolDefOf f with
    | error e => rw [htd] at h; exact absurd h (by simp)
    | ok td =>
      rw [htd] at h
      injection h with h'
      subst h'
      refine ⟨td, by simp [slookup], ?_⟩
      unfold toolDefOf at htd
      rw [hdoc] at htd
      simp only at htd
      cases hpp : processParams f.params with
      | error e => rw [hpp] at htd; exact absurd htd (by simp)
      | ok ps =>
        rw [hpp] at htd
        injection htd with htd'
        rw [← htd']

/-- Witness for C5's amended statement: both halves applied at concrete
callables (`fNoDoc` without a docstring, `fAddOne` with one). -/
theorem register_tool_c5_amended_witness :
    (register_tool emptyRegistry fNoDoc = Except.error RegError.docNone ∧
      errKind RegError.docNone = SpecErrKind.MissingDescription ∧
      registerRun emptyRegistry fNoDoc = emptyRegistry) ∧
    (∃ td, slookup (registerRun emptyRegistry fAddOne).descriptions fAddOne.name = some td ∧
      td.description = ("Adds one to x").trim) :=
  ⟨(register_tool_c5_amended emptyRegistry fNoDoc).1 rfl,
   (register_tool_c5_amended emptyRegistry fAddOne).2 "Adds one to x"
     (registerRun emptyRegistry fAddOne) rfl rfl⟩

theorem registerRun_keys (reg : Registry) (f : Func)
    (h : reg.hooks.map Prod.fst = reg.descriptions.map Prod.fst) :
    (registerRun reg f).hooks.map Prod.fst =
      (registerRun reg f).descriptions.map Prod.fst := by
  cases htd : toolDefOf f with
  | error e => simpa [registerRun, register_tool, htd] using h
  | ok td => simp [registerRun, register_tool, htd, h]

theorem runOps_keys : ∀ (ops : List Op) (reg : Registry),
    reg.hooks.map Prod.fst = reg.descriptions.map Prod.fst →
    (runOps reg ops).hooks.map Prod.fst =
      (runOps reg ops).descriptions.map Prod.fst := by
  intro ops
  induction ops with
  | nil => intro reg h; simpa [runOps] using h
  | cons op rest ih =>
    intro reg h
    cases op with
    | opReg f => exact ih _ (registerRun_keys reg f h)
    | opDisp n a => exact ih _ h

theorem slookup_isSome_eq {α β : Type} : ∀ (l1 : List (String × α)) (l2 : List (String × β)),
    l1.map Prod.fst = l2.map Prod.fst →
    ∀ n, (slookup l1 n).isSome = (slookup l2 n).isSome := by
  intro l1
  induction l1 with
  | nil =>
    intro l2 h n
    cases l2 with
    | nil => rfl
    | cons q s => simp at h
  | cons p t ih =>
    intro l2 h n
    cases l2 with
    | nil => simp at h
    | cons q s =>
      obtain ⟨p1, p2⟩ := p
      obtain ⟨q1, q2⟩ := q
      simp only [List.map_cons, List.cons.injEq] at h
      obtain ⟨h1, h2⟩ := h
      subst h1
      by_cases hn : n = p1
      · simp [slookup, hn]
      · simp [slookup, hn, ih s h2 n]

/-- Claim C10: after any sequence of `register_tool` and `dispatch_tool`
calls starting from the initial empty module state, the two module dicts
are in lockstep — a name has a stored invocable exactly when it has a
stored descriptor (each successful registration inserts into both under
the same name, a failed one into neither, and dispatch inserts nothing). -/
theorem registry_c10 (ops : List Op) (n : String) :
    (slookup (runOps emptyRegistry ops).hooks n).isSome =
      (slookup (runOps emptyRegistry ops).descriptions n).isSome :=
  slookup_isSome_eq _ _ (runOps_keys ops emptyRegistry rfl) n

theorem hlookup_mem : ∀ (h : Heap) (a : Nat) (o : HObj),
    hlookup h a = some o → (a, o) ∈ h := by
  intro h
  induction h with
  | nil => intro a o hl; simp [hlookup] at hl
  | cons p t ih =>
    intro a o hl
    obtain ⟨b, o'⟩ := p
    simp only [hlookup] at hl
    by_cases hab : a = b
    · subst hab
      rw [if_pos rfl] at hl
      injection hl with hl'
      subst hl'
      exact List.mem_cons_self _ _
    · rw [if_neg hab] at hl
      exact List.mem_cons_of_mem _ (ih a o hl)

theorem hlookup_hset_ne : ∀ (h : Heap) (b : Nat) (o : HObj) (x : Nat), x ≠ b →
    hlookup (hset h b o) x = hlookup h x := by
  intro h b o x hx
  induction h with
  | nil => rfl
  | cons p t ih =>
    obtain ⟨c, oc⟩ := p
    by_cases hcb : c = b
    · subst hcb
      simp only [hset, List.map_cons, if_pos rfl]
      simp only [hlookup, if_neg hx]
      simpa [hset] using ih
    · simp only [hset, List.map_cons, if_neg hcb]
      simp only [hlookup]
      by_cases hxc : x = c
      · simp [hxc]
      · rw [if_neg hxc, if_neg hxc]
        exact ih

theorem optMap_congr {α β : Type} (f g : α → Option β) :
    ∀ (l : List α), (∀ x ∈ l, f x = g x) → optMap f l = optMap g l := by
  intro l
  induction l with
  | nil => intro _; rfl
  | cons x xs ih =>
    intro h
    have hx := h x (by simp)
    have hxs := ih (fun y hy => h y (by simp [hy]))
    simp [optMap, hx, hxs]

theorem heapBelow_lookup (c : Nat) (h : Heap) (a : Nat) (o : HObj)
    (hb : heapBelow c h = true) (hl : hlookup h a = some o) :
    a < c ∧ objRefsBelow c o = true := by
  have hm := hlookup_mem h a o hl
  rw [heapBelow, List.all_eq_true] at hb
  have hp := hb (a, o) hm
  simpa using hp

theorem readParam_agree (c : Nat) (h1 h2 : Heap) (hag : agreeBelow c h1 h2)
    (a : Nat) (ha : a < c) : readParam h2 a = readParam h1 a := by
  unfold readParam
  rw [hag a ha]

theorem readTool_agree (c : Nat) (h1 h2 : Heap) (hb : heapBelow c h1 = true)
    (hag : agreeBelow c h1 h2) (a : Nat) (ha : a < c) :
    readTool h2 a = readTool h1 a := by
  cases hl : hlookup h1 a with
  | none => simp [readTool, hag a ha, hl]
  | some o =>
    cases o with
    | paramObj s => simp [readTool, hag a ha, hl]
    | paramsList rs => simp [readTool, hag a ha, hl]
    | rootObj es => simp [readTool, hag a ha, hl]
    | toolObj n d pa =>
      have hrefs := (heapBelow_lookup c h1 a _ hb hl).2
      have hpa : pa < c := by simpa [objRefsBelow] using hrefs
      cases hl2 : hlookup h1 pa with
      | none => simp [readTool, hag a ha, hl, hag pa hpa, hl2]
      | some o2 =>
        cases o2 with
        | paramObj s => simp [readTool, hag a ha, hl, hag pa hpa, hl2]
        | toolObj n2 d2 p2 => simp [readTool, hag a ha, hl, hag pa hpa, hl2]
        | rootObj es => simp [readTool, hag a ha, hl, hag pa hpa, hl2]
        | paramsList rs =>
          have hrefs2 := (heapBelow_lookup c h1 pa _ hb hl2).2
          simp only [objRefsBelow, List.all_eq_true] at hrefs2
          have hopt : optMap (readParam h2) rs = optMap (readParam h1) rs :=
            optMap_congr _ _ rs
              (fun r hr => readParam_agree c h1 h2 hag r (by simpa using hrefs2 r hr))
          simp [readTool, hag a ha, hl, hag pa hpa, hl2, hopt]

theorem readCatalog_agree (c : Nat) (h1 h2 : Heap) (hb : heapBelow c h1 = true)
    (hag : agreeBelow c h1 h2) (a : Nat) (ha : a < c) :
    readCatalog h2 a = readCatalog h1 a := by
  cases hl : hlookup h1 a with
  | none => simp [readCatalog, hag a ha, hl]
  | some o =>
    cases o with
    | paramObj s => simp [readCatalog, hag a ha, hl]
    | paramsList rs => simp [readCatalog, hag a ha, hl]
    | toolObj n d pa => simp [readCatalog, hag a ha, hl]
    | rootObj es =>
      have hrefs := (heapBelow_lookup c h1 a _ hb hl).2
      simp only [objRefsBelow, List.all_eq_true] at hrefs
      have hopt :
          optMap (fun e => match readTool h2 e.2 with
            | some td => some (e.1, td)
            | none => none) es =
          optMap (fun e => match readTool h1 e.2 with
            | some td => some (e.1, td)
            | none => none) es := by
        apply optMap_congr
        intro e he
        have hte : e.2 < c := by simpa using hrefs e he
        rw [readTool_agree c h1 h2 hb hag e.2 hte]
      simp only [readCatalog, hag a ha, hl]
      exact hopt

theorem allocParams_spec : ∀ (l : List ParamSpec) (c : Nat) (h : Heap),
    c ≤ (allocParams c h l).2.1 ∧
    agreeBelow c h (allocParams c h l).2.2 ∧
    (∀ h2 : Heap, agreeBelow (allocParams c h l).2.1 (allocParams c h l).2.2 h2 →
      optMap (readParam h2) (allocParams c h l).1 = some l) := by
  intro l
  induction l with
  | nil =>
    intro c h
    exact ⟨Nat.le_refl c, fun x hx => rfl, fun h2 hag2 => rfl⟩
  | cons s rest ih =>
    intro c h
    obtain ⟨hle, hag, hread⟩ := ih (c + 1) ((c, HObj.paramObj s) :: h)
    simp only [allocParams]
    refine ⟨Nat.le_trans (Nat.le_succ c) hle, ?_, ?_⟩
    · intro x hx
      rw [hag x (Nat.lt_succ_of_lt hx)]
      simp [hlookup, Nat.ne_of_lt hx]
    · intro h2 hag2
      have hc : hlookup h2 c = some (HObj.paramObj s) := by
        have hcc : c < (allocParams (c + 1) ((c, HObj.paramObj s) :: h) rest).2.1 :=
          Nat.lt_of_lt_of_le (Nat.lt_succ_self c) hle
        rw [hag2 c hcc, hag c (Nat.lt_succ_self c)]
        simp [hlookup]
      have hrest := hread h2 hag2
      simp [optMap, readParam, hc, hrest]

theorem allocTool_spec (td : ToolDef) (c : Nat) (h : Heap) :
    c ≤ (allocTool c h td).1 ∧
    (allocTool c h td).1 < (allocTool c h td).2.1 ∧
    c ≤ (allocTool c h td).2.1 ∧
    agreeBelow c h (allocTool c h td).2.2 ∧
    (∀ h2 : Heap, agreeBelow (allocTool c h td).2.1 (allocTool c h td).2.2 h2 →
      readTool h2 (allocTool c h td).1 = some td) := by
  obtain ⟨hle, hag, hread⟩ := allocParams_spec td.params c h
  simp only [allocTool]
  refine ⟨Nat.le_trans hle (Nat.le_succ _), by omega, by omega, ?_, ?_⟩
  · intro x hx
    have hx1 : x ≠ (allocParams c h td.params).2.1 + 1 := by omega
    have hx2 : x ≠ (allocParams c h td.params).2.1 := by omega
    simp only [hlookup, if_neg hx1, if_neg hx2]
    exact hag x hx
  · intro h2 hag2
    have hagp : agreeBelow (allocParams c h td.params).2.1 (allocParams c h td.params).2.2 h2 := by
      intro x hx
      rw [hag2 x (by omega)]
      have hx1 : x ≠ (allocParams c h td.params).2.1 + 1 := by omega
      have hx2 : x ≠ (allocParams c h td.params).2.1 := by omega
      simp only [hlookup, if_neg hx1, if_neg hx2]
    have hat : hlookup h2 ((allocParams c h td.params).2.1 + 1) =
        some (HObj.toolObj td.name td.description (allocParams c h td.params).2.1) := by
      rw [hag2 _ (by omega)]
      simp [hlookup]
    have hap : hlookup h2 (allocParams c h td.params).2.1 =
        some (HObj.paramsList (allocParams c h td.params).1) := by
      rw [hag2 _ (by omega)]
      simp [hlookup]
    have hopt := hread h2 hagp
    simp [readTool, hat, hap, hopt]

theorem allocCatalog_spec : ∀ (m : List (String × ToolDef)) (c : Nat) (h : Heap),
    c ≤ (allocCatalog c h m).2.1 ∧
    agreeBelow c h (allocCatalog c h m).2.2 ∧
    (∀ h2 : Heap, agreeBelow (allocCatalog c h m).2.1 (allocCatalog c h m).2.2 h2 →
      optMap (fun e => match readTool h2 e.2 with
        | some td => some (e.1, td)
        | none => none) (allocCatalog c h m).1 = some m) := by
  intro m
  induction m with
  | nil =>
    intro c h
    exact ⟨Nat.le_refl c, fun x hx => rfl, fun h2 hag2 => rfl⟩
  | cons p rest ih =>
    obtain ⟨n, td⟩ := p
    intro c h
    obtain ⟨hta, htb, htc, htag, htread⟩ := allocTool_spec td c h
    obtain ⟨hle, hag, hread⟩ := ih (allocTool c h td).2.1 (allocTool c h td).2.2
    simp only [allocCatalog]
    refine ⟨Nat.le_trans htc hle, ?_, ?_⟩
    · intro x hx
      rw [hag x (Nat.lt_of_lt_of_le hx htc)]
      exact htag x hx
    · intro h2 hag2
      have hhead : readTool h2 (allocTool c h td).1 = some td := by
        apply htread
        intro x hx
        rw [hag2 x (Nat.lt_of_lt_of_le hx hle)]
        exact hag x hx
      have hrest := hread h2 hag2
      simp [optMap, hhead, hrest]

theorem deepcopyCatalog_spec (m : List (String × ToolDef)) (c : Nat) (h : Heap) :
    c ≤ (deepcopyCatalog c h m).1 ∧
    (deepcopyCatalog c h m).1 < (deepcopyCatalog c h m).2.1 ∧
    agreeBelow c h (deepcopyCatalog c h m).2.2 ∧
    (∀ h2 : Heap, agreeBelow (deepcopyCatalog c h m).2.1 (deepcopyCatalog c h m).2.2 h2 →
      readCatalog h2 (deepcopyCatalog c h m).1 = some m) := by
  obtain ⟨hle, hag, hread⟩ := allocCatalog_spec m c h
  simp only [deepcopyCatalog]
  refine ⟨hle, Nat.lt_succ_self _, ?_, ?_⟩
  · intro x hx
    have hxA : x ≠ (allocCatalog c h m).2.1 := by
      have := Nat.lt_of_lt_of_le hx hle
      omega
    simp only [hlookup, if_neg hxA]
    exact hag x hx
  · intro h2 hag2
    have ha : hlookup h2 (allocCatalog c h m).2.1 =
        some (HObj.rootObj (allocCatalog c h m).1) := by
      rw [hag2 _ (Nat.lt_succ_self _)]
      simp [hlookup]
    have hopt := hread h2 (fun x hx => by
      rw [hag2 x (Nat.lt_succ_of_lt hx)]
      have hxA : x ≠ (allocCatalog c h m).2.1 := by omega
      simp only [hlookup, if_neg hxA])
    simp [readCatalog, ha, hopt]

/-- Claim C7: `get_tools` returns an independent deep-copy snapshot of the
registered descriptors, keyed by tool name, sharing no mutable
sub-structure with the registry: the snapshot's top-level dict is a fresh
object (allocated at or above the pre-call counter, while every registry
object lives below it, so the address ranges are disjoint), it reads back
as exactly the registry's catalog value, the call leaves the registry's
own objects untouched, and mutating any freshly allocated object — the
returned mapping or anything inside it — changes neither the value the
registry reads back to nor the value returned by a subsequent `get_tools`
call.  No invocable is exposed: the snapshot's object graph (`HObj`)
contains descriptor data only, never a callable. -/
theorem get_tools_c7 (s : HState) (m : List (String × ToolDef))
    (hb : heapBelow s.ctr s.heap = true)
    (hroot : s.root < s.ctr)
    (hread : readCatalog s.heap s.root = some m) :
    ∃ a : Nat,
      (get_toolsH s).1 = some a ∧
      s.ctr ≤ a ∧
      (get_toolsH s).2.root = s.root ∧
      agreeBelow s.ctr s.heap (get_toolsH s).2.heap ∧
      readCatalog (get_toolsH s).2.heap a = some m ∧
      readCatalog (get_toolsH s).2.heap s.root = some m ∧
      ∀ (b : Nat) (o : HObj), s.ctr ≤ b →
        readCatalog (mutateAt (get_toolsH s).2 b o).heap s.root = some m ∧
        ∃ a2, (get_toolsH (mutateAt (get_toolsH s).2 b o)).1 = some a2 ∧
          readCatalog (get_toolsH (mutateAt (get_toolsH s).2 b o)).2.heap a2 = some m := by
  have hga : get_toolsH s =
      (some (deepcopyCatalog s.ctr s.heap m).1,
       { heap := (deepcopyCatalog s.ctr s.heap m).2.2,
         ctr := (deepcopyCatalog s.ctr s.heap m).2.1,
         root := s.root }) := by
    simp [get_toolsH, hread]
  obtain ⟨hca, hcb, hcag, hcread⟩ := deepcopyCatalog_spec m s.ctr s.heap
  have hrootread : readCatalog (deepcopyCatalog s.ctr s.heap m).2.2 s.root = some m := by
    rw [readCatalog_agree s.ctr s.heap _ hb hcag s.root hroot]
    exact hread
  rw [hga]
  refine ⟨(deepcopyCatalog s.ctr s.heap m).1, rfl, hca, rfl, hcag,
    hcread _ (fun x hx => rfl), hrootread, ?_⟩
  intro b o hbo
  have hagm : agreeBelow s.ctr s.heap (hset (deepcopyCatalog s.ctr s.heap m).2.2 b o) := by
    intro x hx
    rw [hlookup_hset_ne _ b o x (by omega)]
    exact hcag x hx
  have hmread : readCatalog (hset (deepcopyCatalog s.ctr s.heap m).2.2 b o) s.root = some m := by
    rw [readCatalog_agree s.ctr s.heap _ hb hagm s.root hroot]
    exact hread
  obtain ⟨h2a, h2b, h2ag, h2read⟩ := deepcopyCatalog_spec m
    (deepcopyCatalog s.ctr s.heap m).2.1
    (hset (deepcopyCatalog s.ctr s.heap m).2.2 b o)
  refine ⟨by simpa [mutateAt] using hmread,
    (deepcopyCatalog (deepcopyCatalog s.ctr s.heap m).2.1
      (hset (deepcopyCatalog s.ctr s.heap m).2.2 b o) m).1, ?_, ?_⟩
  · simp [mutateAt, get_toolsH, hmread]
  · simp only [mutateAt, get_toolsH, hmread]
    exact h2read _ (fun x hx => rfl)

/-- Witness for C7 at a concrete well-formed one-tool state. -/
theorem get_tools_c7_witness :
    ∃ a : Nat,
      (get_toolsH sEx).1 = some a ∧
      sEx.ctr ≤ a ∧
      (get_toolsH sEx).2.root = sEx.root ∧
      agreeBelow sEx.ctr sEx.heap (get_toolsH sEx).2.heap ∧
      readCatalog (get_toolsH sEx).2.heap a = some mEx ∧
      readCatalog (get_toolsH sEx).2.heap sEx.root = some mEx ∧
      ∀ (b : Nat) (o : HObj), sEx.ctr ≤ b →
        readCatalog (mutateAt (get_toolsH sEx).2 b o).heap sEx.root = some mEx ∧
        ∃ a2, (get_toolsH (mutateAt (get_toolsH sEx).2 b o)).1 = some a2 ∧
          readCatalog (get_toolsH (mutateAt (get_toolsH sEx).2 b o)).2.heap a2 = some mEx :=
  get_tools_c7 sEx mEx (by decide) (by decide) (by decide)

/-- Claim C9: two consecutive `get_tools` calls with no intervening
registration return equal data — both snapshots read back to the same
catalog value `m` (in particular both read back to it in the final heap,
so comparing them value-wise, as Python `==` does, finds them equal). -/
theorem get_tools_c9 (s : HState) (m : List (String × ToolDef))
    (hb : heapBelow s.ctr s.heap = true)
    (hroot : s.root < s.ctr)
    (hread : readCatalog s.heap s.root = some m) :
    ∃ a1 a2,
      (get_toolsH s).1 = some a1 ∧
      (get_toolsH (get_toolsH s).2).1 = some a2 ∧
      readCatalog (get_toolsH (get_toolsH s).2).2.heap a1 = some m ∧
      readCatalog (get_toolsH (get_toolsH s).2).2.heap a2 = some m := by
  have hga : get_toolsH s =
      (some (deepcopyCatalog s.ctr s.heap m).1,
       { heap := (deepcopyCatalog s.ctr s.heap m).2.2,
         ctr := (deepcopyCatalog s.ctr s.heap m).2.1,
         root := s.root }) := by
    simp [get_toolsH, hread]
  obtain ⟨hca, hcb, hcag, hcread⟩ := deepcopyCatalog_spec m s.ctr s.heap
  have hrootread : readCatalog (deepcopyCatalog s.ctr s.heap m).2.2 s.root = some m := by
    rw [readCatalog_agree s.ctr s.heap _ hb hcag s.root hroot]
    exact hread
  obtain ⟨h2a, h2b, h2ag, h2read⟩ := deepcopyCatalog_spec m
    (deepcopyCatalog s.ctr s.heap m).2.1 (deepcopyCatalog s.ctr s.heap m).2.2
  have hga2 : get_toolsH
      { heap := (deepcopyCatalog s.ctr s.heap m).2.2,
        ctr := (deepcopyCatalog s.ctr s.heap m).2.1,
        root := s.root } =
      (some (deepcopyCatalog (deepcopyCatalog s.ctr s.heap m).2.1
              (deepcopyCatalog s.ctr s.heap m).2.2 m).1,
       { heap := (deepcopyCatalog (deepcopyCatalog s.ctr s.heap m).2.1
                   (deepcopyCatalog s.ctr s.heap m).2.2 m).2.2,
         ctr := (deepcopyCatalog (deepcopyCatalog s.ctr s.heap m).2.1
                  (deepcopyCatalog s.ctr s.heap m).2.2 m).2.1,
         root := s.root }) := by
    simp [get_toolsH, hrootread]
  rw [hga, hga2]
  exact ⟨(deepcopyCatalog s.ctr s.heap m).1,
    (deepcopyCatalog (deepcopyCatalog s.ctr s.heap m).2.1
      (deepcopyCatalog s.ctr s.heap m).2.2 m).1,
    rfl, rfl, hcread _ h2ag, h2read _ (fun x hx => rfl)⟩

/-- Witness for C9 at the same concrete well-formed one-tool state. -/
theorem get_tools_c9_witness :
    ∃ a1 a2,
      (get_toolsH sEx).1 = some a1 ∧
      (get_toolsH (get_toolsH sEx).2).1 = some a2 ∧
      readCatalog (get_toolsH (get_toolsH sEx).2).2.heap a1 = some mEx ∧
      readCatalog (get_toolsH (get_toolsH sEx).2).2.heap a2 = some mEx :=
  get_tools_c9 sEx mEx (by decide) (by decide) (by decide)
